import Mathlib

/-!
# pciefw: PCI forwarding over a byte stream (src/qemu/pciefw.c)

A shallow embedding of the message framing, the request/reply transaction
engine, the asynchronous dispatcher and the BAR discovery loop, built with
`CONFIG_USE_UDP == 0` (the stream transport) for a little-endian LP64 host
(`size_t`, `uintptr_t` are 64 bits wide, `ssize_t` is their signed twin).

Memory objects (the session message buffer, the stack `reply`, the
destination of a read) are byte memories indexed by offset; an access past an
object's capacity is an access to the bytes that follow it.  The socket and
the host services are an explicit environment carried in `State`.
-/

namespace Pciefw

/-! ## Bytes, little-endian integers, byte memories -/

abbrev Byte := Fin 256

/-- The conversion of an unsigned value to `uint8_t`. -/
def byte (v : Nat) : Byte := ⟨v % 256, Nat.mod_lt v (by decide)⟩

/-- The `n` bytes a little-endian host stores for the `n`-byte unsigned
value `v` (the value is truncated to `n` bytes, as an integer conversion does). -/
def le_bytes : Nat → Nat → List Byte
  | 0, _ => []
  | n + 1, v => byte v :: le_bytes n (v / 256)

/-- The unsigned integer a little-endian host loads from a run of bytes. -/
def le_value : List Byte → Nat
  | [] => 0
  | b :: bs => b.val + 256 * le_value bs

abbrev Mem := Nat → Byte

/-- Write the bytes `bs` at offset `off` (a `memcpy`, a typed store, or the
kernel filling a receive buffer). -/
def store (m : Mem) (off : Nat) (bs : List Byte) : Mem :=
  fun i => if off ≤ i ∧ i < off + bs.length then bs.getD (i - off) 0 else m i

/-- Read `n` bytes starting at offset `off`. -/
def load (m : Mem) (off : Nat) : Nat → List Byte
  | 0 => []
  | n + 1 => m off :: load m (off + 1) n

/-- Conversion of a signed 64-bit value to `size_t`. -/
def u64 (x : Int) : Nat := (x % 2 ^ 64).toNat

/-- The difference `a - b` of two `size_t` values: below zero it wraps around
to `2 ^ 64 - (b - a)`, which is `(a - b) mod 2 ^ 64`. -/
def size_sub (a b : Nat) : Nat := if b ≤ a then a - b else 2 ^ 64 - (b - a)

/-- Conversion of a `size_t` to `ssize_t`. -/
def s64 (x : Nat) : Int := if x < 2 ^ 63 then (x : Int) else (x : Int) - 2 ^ 64

/-! ## Layout of the packed structures -/

/-- Value of sizeof(pciefw_header_t). -/
def HEADER_SIZE : Nat := 2
/-- Value of offsetof(pciefw_msg_t, op). -/
def OFF_OP : Nat := 2
/-- Value of offsetof(pciefw_msg_t, bar). -/
def OFF_BAR : Nat := 3
/-- Value of offsetof(pciefw_msg_t, width). -/
def OFF_WIDTH : Nat := 4
/-- Value of offsetof(pciefw_msg_t, addr). -/
def OFF_ADDR : Nat := 5
/-- Value of offsetof(pciefw_msg_t, size). -/
def OFF_SIZE : Nat := 13
/-- Value of offsetof(pciefw_msg_t, data). -/
def OFF_DATA : Nat := 15
/-- Capacity of the session message buffer. -/
def PCIEFW_MSG_MAX_SIZE : Nat := OFF_DATA + 0x1000
/-- Value of sizeof(pciefw_reply_t): header, status byte, 8 data bytes. -/
def REPLY_SIZE : Nat := 11
/-- Value of offsetof(pciefw_reply_t, data). -/
def OFF_REPLY_DATA : Nat := 3

def PCIEFW_OP_READ_CONFIG : Nat := 0
def PCIEFW_OP_WRITE_CONFIG : Nat := 1
def PCIEFW_OP_READ_MEM : Nat := 2
def PCIEFW_OP_WRITE_MEM : Nat := 3
def PCIEFW_OP_MSI : Nat := 7
def PCI_NBARS : Nat := 6

/-- Modelled from the spec: the constant PCI_BASE_ADDRESS_0 comes from the
host's PCI register header, which is not part of the sources; the spec's
read-config example addresses the first BAR at configuration offset 0x10. -/
def PCI_BASE_ADDRESS_0 : Nat := 0x10

/-! ## Environment: the socket and the host services -/

/-- What one call of `select` reports. -/
inductive SelRes where
  /-- a positive return: the socket is readable -/
  | ready
  /-- a return `<= 0` with `errno == EINTR` -/
  | eintr
  /-- a return `<= 0` with another `errno` (error, or an expired timeout) -/
  | other
  deriving DecidableEq, Repr

/-- What one call of `send` returns. -/
inductive SendRes where
  /-- all the bytes were taken: the return value is the requested size -/
  | complete
  /-- the raw return value chosen by the kernel (`-1`, or a short count) -/
  | returned (n : Int)
  deriving DecidableEq, Repr

structure State where
  /-- bytes the peer delivers on the stream, in order; after them the stream ends -/
  rx : List Byte
  /-- what `recv` returns on the ended stream: `-1` (error) when set, else `0` -/
  rx_err : Bool
  /-- outcomes of the coming `select` calls; once used up, `select` fails -/
  selects : List SelRes
  /-- outcomes of the coming `send` calls; once used up, sends complete -/
  sends : List SendRes
  /-- log: the bytes handed to each `send` call -/
  tx : List (List Byte)
  /-- log: the length asked of each `recv` call -/
  recvs : List Nat
  /-- content of the uninitialised stack slots -/
  stack : Mem
  /-- the session message buffer `state->msg` -/
  msg : Mem
  /-- the table `state->bar_size` -/
  bar_size : Nat → Nat
  /-- log: regions registered with the host, as (BAR index, size) -/
  regions : List (Nat × Nat)
  /-- log: `pci_dma_write` calls, as (address, length, source bytes) -/
  dma : List (Nat × Nat × List Byte)
  /-- log: `msi_notify` calls, by vector -/
  msi : List Nat

/-- Result of one `recv` call. -/
structure RecvRes where
  n : Int
  bytes : List Byte
  st : State

/-- The call `recv(fd, p, len, MSG_WAITALL)`: the full `len` bytes when the
stream holds them, otherwise what is left of the stream, and on the ended
stream `0` or `-1`. -/
def sock_recv (s : State) (len : Nat) : RecvRes :=
  let s1 := { s with recvs := s.recvs ++ [len] }
  if len ≤ s.rx.length then
    { n := (len : Int), bytes := s.rx.take len, st := { s1 with rx := s.rx.drop len } }
  else if s.rx = [] then
    { n := if s.rx_err then -1 else 0, bytes := [], st := s1 }
  else
    { n := (s.rx.length : Int), bytes := s.rx, st := { s1 with rx := [] } }

/-- The value the next `send` call returns when asked to send `size` bytes. -/
def send_ret (s : State) (size : Nat) : Int :=
  match s.sends with
  | [] => (size : Int)
  | SendRes.complete :: _ => (size : Int)
  | SendRes.returned n :: _ => n

/-- The call `send(fd, p, size, 0)` on the bytes `bs`. -/
def sock_send (s : State) (bs : List Byte) (size : Nat) : Int × State :=
  (send_ret s size, { s with tx := s.tx ++ [bs], sends := s.sends.tail })

/-- The next `send` of `size` bytes is reported complete. -/
def send_ok (s : State) (size : Nat) : Prop := u64 (send_ret s size) = size

instance (s : State) (size : Nat) : Decidable (send_ok s size) := by
  unfold send_ok
  exact inferInstance

/-! ## Transport -/

/-- Result of a receive into a buffer. -/
structure BufRes where
  ret : Int
  buf : Mem
  st : State

/-- The stream variant of the receive: the 2-byte header is read into the
local `h`, checked against `max_size`, and the `h.size - sizeof(h)` bytes of
the body are read into the buffer from offset 2; the header bytes of the
buffer itself are not written.  The result is `h.size`, or `-1`. -/
def pciefw_recv_buf (s : State) (buf : Mem) (max_size : Nat) : BufRes :=
  if max_size < HEADER_SIZE then { ret := -1, buf := buf, st := s } else
  let r1 := sock_recv s HEADER_SIZE
  if u64 r1.n ≠ HEADER_SIZE then { ret := -1, buf := buf, st := r1.st } else
  let hsize := le_value r1.bytes
  if hsize > max_size then { ret := -1, buf := buf, st := r1.st } else
  let rem_size := size_sub hsize HEADER_SIZE
  let r2 := sock_recv r1.st rem_size
  let buf2 := store buf HEADER_SIZE r2.bytes
  if r2.n ≠ s64 rem_size then { ret := -1, buf := buf2, st := r2.st } else
  { ret := (hsize : Int), buf := buf2, st := r2.st }

/-- Hands `size` bytes of the buffer to `send`: `0` when the call returns
`size`, `-1` otherwise. -/
def pciefw_send_buf (s : State) (buf : Mem) (size : Nat) : Int × State :=
  let r := sock_send s (load buf 0 size) size
  if u64 r.1 ≠ size then (-1, r.2) else (0, r.2)

/-- The loop of `pciefw_recv_reply`, one iteration per `select` outcome. -/
def pciefw_recv_reply_loop : List SelRes → State → Mem → BufRes
  | [], s, r => { ret := -1, buf := r, st := s }
  | SelRes.eintr :: rest, s, r => pciefw_recv_reply_loop rest { s with selects := rest } r
  | SelRes.other :: rest, s, r => { ret := -1, buf := r, st := { s with selects := rest } }
  | SelRes.ready :: rest, s, r =>
    let b := pciefw_recv_buf { s with selects := rest } r REPLY_SIZE
    if b.ret ≠ 0 then
      { ret := if u64 b.ret = REPLY_SIZE then 0 else -1, buf := b.buf, st := b.st }
    else pciefw_recv_reply_loop rest b.st b.buf

/-- Waits for the socket with `select` (no timeout) and receives a reply into
`r`: `0` when the frame received has the size of the reply structure. -/
def pciefw_recv_reply (s : State) (r : Mem) : BufRes :=
  pciefw_recv_reply_loop s.selects s r

/-- Receives a message into the session buffer: `0` for a positive result of
`pciefw_recv_buf`, `1` for `0`, `-1` otherwise. -/
def pciefw_recv_msg (s : State) : Int × State :=
  let b := pciefw_recv_buf s s.msg PCIEFW_MSG_MAX_SIZE
  let s1 := { b.st with msg := b.buf }
  if b.ret > 0 then (0, s1)
  else if b.ret = 0 then (1, s1)
  else (-1, s1)

/-- Sends the session buffer: the total size, offset of the payload plus the
payload-size field, is stored in the header and is the number of bytes sent. -/
def pciefw_send_msg (s : State) : Int × State :=
  let size := OFF_DATA + le_value (load s.msg OFF_SIZE 2)
  let m := store s.msg 0 (le_bytes 2 size)
  pciefw_send_buf { s with msg := m } m size

/-! ## Transaction engine -/

/-- Builds a write-mem request in the session buffer and sends it. -/
def pciefw_send_write_mem (s : State) (bar addr width data : Nat) : Int × State :=
  let m := store s.msg OFF_OP [byte PCIEFW_OP_WRITE_MEM]
  let m := store m OFF_BAR [byte bar]
  let m := store m OFF_WIDTH [byte width]
  let m := store m OFF_ADDR (le_bytes 8 addr)
  let m := store m OFF_SIZE (le_bytes 2 width)
  let m := store m OFF_DATA (le_bytes 8 data)
  let r := pciefw_send_msg { s with msg := m }
  if r.1 ≠ 0 then (-1, r.2) else (0, r.2)

/-- Builds a write-config request in the session buffer (the BAR byte keeps
what the buffer held) and sends it. -/
def pciefw_send_write_config (s : State) (addr width data : Nat) : Int × State :=
  let m := store s.msg OFF_OP [byte PCIEFW_OP_WRITE_CONFIG]
  let m := store m OFF_WIDTH [byte width]
  let m := store m OFF_ADDR (le_bytes 8 addr)
  let m := store m OFF_SIZE (le_bytes 2 width)
  let m := store m OFF_DATA (le_bytes 8 data)
  let r := pciefw_send_msg { s with msg := m }
  if r.1 ≠ 0 then (-1, r.2) else (0, r.2)

/-- Result of a read transaction: the error code, the memory behind the
`data` pointer, the state. -/
structure ReadRes where
  err : Int
  data : Mem
  st : State

/-- The `switch (width)` of `pciefw_send_read_common`: a width-typed copy from
the reply's data slot to the destination. -/
def copy_reply_data (width : Nat) (reply data : Mem) : Mem :=
  match width with
  | 1 => store data 0 (load reply OFF_REPLY_DATA 1)
  | 2 => store data 0 (load reply OFF_REPLY_DATA 2)
  | 4 => store data 0 (load reply OFF_REPLY_DATA 4)
  | 8 => store data 0 (load reply OFF_REPLY_DATA 8)
  | _ => data

/-- Completes a read request (address, width, payload size 0), sends it,
waits for the reply in the uninitialised local `reply`, and copies `width`
bytes of its data slot behind the `data` pointer. -/
def pciefw_send_read_common (s : State) (addr width : Nat) (data : Mem) : ReadRes :=
  let m := store s.msg OFF_ADDR (le_bytes 8 addr)
  let m := store m OFF_WIDTH [byte width]
  let m := store m OFF_SIZE (le_bytes 2 0)
  let r := pciefw_send_msg { s with msg := m }
  if r.1 ≠ 0 then { err := -1, data := data, st := r.2 } else
  let b := pciefw_recv_reply r.2 r.2.stack
  if b.ret ≠ 0 then { err := -1, data := data, st := b.st } else
  { err := 0, data := copy_reply_data width b.buf data, st := b.st }

/-- A read transaction with the read-config opcode. -/
def pciefw_send_read_config (s : State) (addr width : Nat) (data : Mem) : ReadRes :=
  let m := store s.msg OFF_OP [byte PCIEFW_OP_READ_CONFIG]
  pciefw_send_read_common { s with msg := m } addr width data

/-- A read transaction with the read-mem opcode and the BAR index. -/
def pciefw_send_read_mem (s : State) (bar addr width : Nat) (data : Mem) : ReadRes :=
  let m := store s.msg OFF_OP [byte PCIEFW_OP_READ_MEM]
  let m := store m OFF_BAR [byte bar]
  pciefw_send_read_common { s with msg := m } addr width data

/-! ## Device operations -/

/-- A zero-initialised `uint64_t`. -/
def zero_mem : Mem := fun _ => 0

/-- The MMIO read handler; its `opaque` argument is the pair of the BAR index
and the state.  The 64-bit `data` starts from 0 and the result is all ones on
failure. -/
def pciefw_mmio_read (s : State) (bar addr width : Nat) : Nat × State :=
  let r := pciefw_send_read_mem s bar addr width zero_mem
  (if r.err ≠ 0 then 2 ^ 64 - 1 else le_value (load r.data 0 8), r.st)

/-- The MMIO write handler: a write-mem request whose result is dropped. -/
def pciefw_mmio_write (s : State) (bar addr data width : Nat) : State :=
  (pciefw_send_write_mem s bar addr width data).2

/-- The configuration read handler: the 64-bit `data` starts from 0, becomes
all ones on failure, and is returned truncated to 32 bits. -/
def pciefw_read_config (s : State) (addr width : Nat) : Nat × State :=
  let r := pciefw_send_read_config s addr width zero_mem
  let data := if r.err ≠ 0 then 2 ^ 64 - 1 else le_value (load r.data 0 8)
  (data % 2 ^ 32, r.st)

/-! ## Remote event dispatcher -/

/-- The read handler of the socket: a zero-timeout `select`, one received
message, and the dispatch on `msg->op`; the DMA write takes its address,
length and source from the session buffer. -/
def pciefw_on_read (s : State) : State :=
  match s.selects with
  | SelRes.ready :: rest =>
    let r := pciefw_recv_msg { s with selects := rest }
    if r.1 = -1 then r.2
    else if r.1 = 1 then r.2
    else
      let op := (r.2.msg OFF_OP).val
      if op = PCIEFW_OP_WRITE_MEM then
        let addr := le_value (load r.2.msg OFF_ADDR 8)
        let size := le_value (load r.2.msg OFF_SIZE 2)
        { r.2 with dma := r.2.dma ++ [(addr, size, load r.2.msg OFF_DATA size)] }
      else if op = PCIEFW_OP_MSI then { r.2 with msi := r.2.msi ++ [0] }
      else r.2
  | _ :: rest => { s with selects := rest }
  | [] => s

/-! ## BAR discovery -/

/-- Outcome of the host services `pciefw_pci_init` calls before it probes. -/
structure Host where
  /-- the message buffer was allocated -/
  msg_alloc : Bool
  /-- the option list was allocated -/
  optlist_alloc : Bool
  /-- the options were created -/
  opts_created : Bool
  /-- the descriptor returned by the connect call, `-1` on failure -/
  sock : Int

/-- The 32-bit complement, plus one: `~x + 1` on a `uint32_t`. -/
def neg32 (x : Nat) : Nat := ((2 ^ 32 - 1 - x) + 1) % 2 ^ 32

/-- The body of the probing loop, for BAR index `i`. -/
def pciefw_pci_init_bar (s : State) (i : Nat) : State :=
  let config_addr := (PCI_BASE_ADDRESS_0 + i * 4) % 2 ^ 64
  let s0 := { s with bar_size := Function.update s.bar_size i 0 }
  let w := pciefw_send_write_config s0 config_addr 4 (2 ^ 64 - 1)
  if w.1 ≠ 0 then w.2 else
  let r := pciefw_send_read_config w.2 config_addr 4 w.2.stack
  if r.err ≠ 0 then r.st else
  let bar_size := le_value (load r.data 0 4) &&& 0xFFFFFFF0
  let bar_size := neg32 bar_size
  if bar_size = 0 then r.st else
  { r.st with
    bar_size := Function.update r.st.bar_size i bar_size,
    regions := r.st.regions ++ [(i, bar_size)] }

/-- The device initialisation; the MSI set-up and the registration of the
read handler after the loop change nothing that is modelled here. -/
def pciefw_pci_init (h : Host) (s : State) : Int × State :=
  if h.msg_alloc = false then (-1, s) else
  if h.optlist_alloc = false then (-1, s) else
  if h.opts_created = false then (-1, s) else
  if h.sock = -1 then (-1, s) else
  (0, (List.range PCI_NBARS).foldl pciefw_pci_init_bar s)

/-! ## The wire format of the specification -/

/-- The packed little-endian Request of the wire-format table: total size
(uint16) at 0, opcode at 2, BAR at 3, width at 4, address (uint64) at 5,
payload size (uint16) at 13, payload at 15. -/
def wire_request (total op bar width addr psize : Nat) (payload : List Byte) : List Byte :=
  le_bytes 2 total ++ [byte op, byte bar, byte width] ++ le_bytes 8 addr
    ++ le_bytes 2 psize ++ payload

/-- The Reply on the wire: size (uint16), status, 8 data bytes. -/
def wire_reply (status : Byte) (data : List Byte) : List Byte :=
  le_bytes 2 REPLY_SIZE ++ status :: data

/-! ## Auxiliary definitions used in the statements -/

/-- The session buffer after `pciefw_send_read_common` has built and sent its
request: address, width, payload size 0, total size 15. -/
def read_request (m : Mem) (addr width : Nat) : Mem :=
  store (store (store (store m 5 (le_bytes 8 addr)) 4 [byte width]) 13 (le_bytes 2 0))
    0 (le_bytes 2 15)

/-- The state after the send of a read request. -/
def sent_read (s : State) (addr width : Nat) : State :=
  { s with
    msg := read_request s.msg addr width,
    tx := s.tx ++ [load (read_request s.msg addr width) 0 15],
    sends := s.sends.tail }

/-- The wait for the reply ends with the socket reported readable (after any
number of interrupted waits). -/
def reply_ready (s : State) : Prop :=
  (s.selects.dropWhile (fun r => decide (r = SelRes.eintr))).head? = some SelRes.ready

/-- The stream holds a whole frame whose header declares the fixed reply size. -/
def reply_frame (s : State) : Prop :=
  s.rx.take 2 = le_bytes 2 REPLY_SIZE ∧ REPLY_SIZE ≤ s.rx.length

instance (s : State) : Decidable (reply_ready s) := by
  unfold reply_ready
  exact inferInstance

instance (s : State) : Decidable (reply_frame s) := by
  unfold reply_frame
  exact inferInstance

/-- The configuration offset probed for BAR `i`. -/
def config_addr (i : Nat) : Nat := (PCI_BASE_ADDRESS_0 + i * 4) % 2 ^ 64

/-- The state in which the probe of BAR `i` starts: the loop has run for the
indices below `i`. -/
def probe_state (s : State) (i : Nat) : State :=
  (List.range i).foldl pciefw_pci_init_bar s

/-- The write-config step of the probe of BAR `i`, run from state `s`. -/
def probe_write (s : State) (i : Nat) : Int × State :=
  pciefw_send_write_config { s with bar_size := Function.update s.bar_size i 0 }
    (config_addr i) 4 (2 ^ 64 - 1)

/-- The read-config step of the probe of BAR `i`, run after the write-config step. -/
def probe_read (s : State) (i : Nat) : ReadRes :=
  pciefw_send_read_config (probe_write s i).2 (config_addr i) 4 (probe_write s i).2.stack

/-- The probe of BAR `i` failed: the write-config send or the read-config
transaction returned an error. -/
def probe_failed (s : State) (i : Nat) : Prop :=
  (probe_write s i).1 ≠ 0 ∨ (probe_read s i).err ≠ 0

instance (s : State) (i : Nat) : Decidable (probe_failed s i) := by
  unfold probe_failed
  exact inferInstance

/-- The 32-bit value the read-config step of the probe stored in `bar_size`. -/
def probe_value (s : State) (i : Nat) : Nat := le_value (load (probe_read s i).data 0 4)

/-- The addresses of the write-config requests found in a send log, in order. -/
def probe_addrs (tx : List (List Byte)) : List Nat :=
  (tx.filter (fun f => decide (f.getD 2 0 = byte PCIEFW_OP_WRITE_CONFIG))).map
    (fun f => le_value ((f.drop 5).take 8))

/-- The table entries that got a region, with their sizes, for the indices below `n`. -/
def mapped_bars (bar_size : Nat → Nat) (n : Nat) : List (Nat × Nat) :=
  ((List.range n).filter (fun j => decide (bar_size j ≠ 0))).map (fun j => (j, bar_size j))

/-- An idle environment with an all-zero message buffer, for concrete runs. -/
def idle : State :=
  { rx := [], rx_err := false, selects := [], sends := [], tx := [], recvs := [],
    stack := zero_mem, msg := zero_mem, bar_size := fun _ => 0,
    regions := [], dma := [], msi := [] }

/-- Host services that all succeed: the connection is established on descriptor 3. -/
def host_up : Host :=
  { msg_alloc := true, optlist_alloc := true, opts_created := true, sock := 3 }

/-- A remote end that answers the first read-config probe with 0xFFFFFFF0;
after that the `select` outcomes are used up, so every later wait fails. -/
def probe_world : State :=
  { idle with
    selects := [SelRes.ready],
    rx := wire_reply 0 [0xF0, 0xFF, 0xFF, 0xFF, 0, 0, 0, 0] }

/-- A sender whose buffer holds a read-config request of width 4, address 0
and payload size 0. -/
def roundtrip_sender : State := { idle with msg := store zero_mem 4 [4] }

/-- A receiver with an all-zero buffer whose stream holds the bytes `bs`. -/
def roundtrip_receiver (bs : List Byte) : State := { idle with rx := bs }

/-- The session after a 4-byte MMIO write of 0xAABBCCDD at 0x2000 to BAR 0,
when the remote end then sends a frame made of a header alone (total size 2). -/
def stale_world : State :=
  { pciefw_mmio_write idle 0 0x2000 0xAABBCCDD 4 with
    selects := [SelRes.ready],
    rx := [2, 0] }

/-- The session after an 8-byte MMIO write of 0x1122334455667788 at 0x2000 to
BAR 0, when the remote end then sends a write-mem frame of total size 15 (no
payload byte) for address 0x3000 whose payload-size field says 8. -/
def short_payload_world : State :=
  { pciefw_mmio_write idle 0 0x2000 0x1122334455667788 8 with
    selects := [SelRes.ready],
    rx := [15, 0, 3, 0, 8, 0, 0x30, 0, 0, 0, 0, 0, 0, 8, 0] }

/-- A stream whose first frame declares total size 0, followed by 12 more bytes. -/
def undersized_world : State :=
  { idle with rx := [0, 0, 1, 2, 3, 4, 5, 6, 7, 8, 9, 10, 11, 12] }

/-! ## Bytes and memories: basic facts -/

@[simp]
theorem byte_val (v : Nat) : (byte v).val = v % 256 := rfl

@[simp]
theorem le_bytes_length (n v : Nat) : (le_bytes n v).length = n := by
  induction n generalizing v with
  | zero => rfl
  | succ n ih => simp [le_bytes, ih]

theorem le_value_le_bytes (n v : Nat) : le_value (le_bytes n v) = v % 256 ^ n := by
  induction n generalizing v with
  | zero => simp [le_bytes, le_value, Nat.mod_one]
  | succ n ih =>
    simp only [le_bytes, le_value, byte_val, ih]
    rw [pow_succ, Nat.mul_comm (256 ^ n) 256, Nat.mod_mul]

theorem le_value_lt (bs : List Byte) : le_value bs < 256 ^ bs.length := by
  induction bs with
  | nil => simp [le_value]
  | cons b bs ih =>
    have hb := b.isLt
    simp only [le_value, List.length_cons, pow_succ]
    omega

theorem le_bytes_le_value (bs : List Byte) : le_bytes bs.length (le_value bs) = bs := by
  induction bs with
  | nil => rfl
  | cons b bs ih =>
    have hb := b.isLt
    have h1 : (b.val + 256 * le_value bs) % 256 = b.val := by omega
    have h2 : (b.val + 256 * le_value bs) / 256 = le_value bs := by omega
    simp only [List.length_cons, le_bytes, le_value, h2, ih]
    congr 1
    apply Fin.ext
    simp [h1]

@[simp]
theorem load_length (m : Mem) (off n : Nat) : (load m off n).length = n := by
  induction n generalizing off with
  | zero => rfl
  | succ n ih => simp [load, ih]

theorem load_add (m : Mem) (off a b : Nat) :
    load m off (a + b) = load m off a ++ load m (off + a) b := by
  induction a generalizing off with
  | zero => simp [load]
  | succ a ih =>
    have h : a + 1 + b = (a + b) + 1 := by omega
    rw [h]
    simp only [load, ih, List.cons_append]
    have h' : off + 1 + a = off + (a + 1) := by omega
    rw [h']

theorem load_congr (m m2 : Mem) (off n : Nat)
    (h : ∀ k, k < n → m (off + k) = m2 (off + k)) : load m off n = load m2 off n := by
  induction n generalizing off with
  | zero => rfl
  | succ n ih =>
    simp only [load]
    rw [ih (off + 1) (fun k hk => by
      have := h (k + 1) (by omega)
      rwa [Nat.add_assoc, Nat.add_comm 1 k])]
    have h0 := h 0 (by omega)
    simp only [Nat.add_zero] at h0
    rw [h0]

theorem load_store_inside (m : Mem) (off : Nat) (bs : List Byte) (k n : Nat)
    (h : k + n ≤ bs.length) : load (store m off bs) (off + k) n = (bs.drop k).take n := by
  induction n generalizing k with
  | zero => simp [load]
  | succ n ih =>
    have hk : k < bs.length := by omega
    have hd : bs.drop k = bs[k] :: bs.drop (k + 1) := List.drop_eq_getElem_cons hk
    have hc : off ≤ off + k ∧ off + k < off + bs.length := by omega
    simp only [load, hd, List.take_succ_cons]
    rw [Nat.add_assoc, ih (k + 1) (by omega)]
    congr 1
    simp only [store, hc, and_self, if_true, Nat.add_sub_cancel_left]
    simp [List.getD_eq_getElem?_getD, hk]

theorem load_store_same (m : Mem) (off : Nat) (bs : List Byte) :
    load (store m off bs) off bs.length = bs := by
  have h := load_store_inside m off bs 0 bs.length (by omega)
  simpa using h

theorem load_store_outside (m : Mem) (off : Nat) (bs : List Byte) (off2 n : Nat)
    (h : off2 + n ≤ off ∨ off + bs.length ≤ off2) :
    load (store m off bs) off2 n = load m off2 n := by
  apply load_congr
  intro k hk
  have hc : ¬ (off ≤ off2 + k ∧ off2 + k < off + bs.length) := by omega
  simp [store, hc]

/-! ## The socket and the transport -/

theorem size_sub_eq_mod (a b : Nat) (ha : a < 2 ^ 64) (hb : b < 2 ^ 64) :
    size_sub a b = (a + 2 ^ 64 - b) % 2 ^ 64 := by
  unfold size_sub
  split <;> omega

theorem u64_natCast (n : Nat) (h : n < 2 ^ 64) : u64 (n : Int) = n := by
  unfold u64
  omega

theorem u64_neg_one : u64 (-1) = 2 ^ 64 - 1 := by decide

theorem s64_small (n : Nat) (h : n < 2 ^ 63) : s64 n = (n : Int) := by
  unfold s64
  rw [if_pos h]

theorem sock_recv_exact (s : State) (a b : List Byte) (h : s.rx = a ++ b) :
    sock_recv s a.length
      = { n := (a.length : Int), bytes := a,
          st := { s with recvs := s.recvs ++ [a.length], rx := b } } := by
  simp [sock_recv, h]

theorem sock_recv_n_ge (s : State) (len : Nat) : -1 ≤ (sock_recv s len).n := by
  unfold sock_recv
  split
  · simp; omega
  · split
    · cases s.rx_err <;> simp
    · simp; omega

/-- A complete frame on the stream is received whole: the header goes to the
local header variable, the body to the buffer from offset 2. -/
theorem recv_buf_frame (s : State) (buf : Mem) (max_size hsize : Nat)
    (body tail : List Byte) (hmax : 2 ≤ max_size) (h2 : 2 ≤ hsize)
    (hle : hsize ≤ max_size) (hlt : hsize < 65536) (hbody : body.length = hsize - 2)
    (hrx : s.rx = le_bytes 2 hsize ++ body ++ tail) :
    pciefw_recv_buf s buf max_size
      = { ret := (hsize : Int), buf := store buf 2 body,
          st := { s with rx := tail, recvs := s.recvs ++ [2, hsize - 2] } } := by
  have hrx1 : s.rx = le_bytes 2 hsize ++ (body ++ tail) := by rw [hrx, List.append_assoc]
  have e1 := sock_recv_exact s (le_bytes 2 hsize) (body ++ tail) hrx1
  rw [le_bytes_length] at e1
  have hv : le_value (le_bytes 2 hsize) = hsize := by
    rw [le_value_le_bytes]; omega
  have hrem : size_sub hsize 2 = body.length := by
    unfold size_sub
    rw [if_pos h2, hbody]
  have e2 := sock_recv_exact
    { s with recvs := s.recvs ++ [2], rx := body ++ tail } body tail rfl
  unfold pciefw_recv_buf
  simp only [HEADER_SIZE, e1, hv, hrem, e2]
  have hu : u64 2 = 2 := by decide
  have hs : s64 (hsize - 2) = ((hsize - 2 : Nat) : Int) := s64_small _ (by omega)
  have c1 : ¬ max_size < 2 := by omega
  have c2 : ¬ hsize > max_size := by omega
  simp [hu, hs, c1, c2, hbody]

/-- The fields of a frame body stored from offset 2 of a buffer. -/
theorem frame_fields (m : Mem) (a b c : Byte) (A S P : List Byte)
    (hA : A.length = 8) (hS : S.length = 2) :
    store m 2 ([a, b, c] ++ A ++ S ++ P) 2 = a
    ∧ store m 2 ([a, b, c] ++ A ++ S ++ P) 3 = b
    ∧ store m 2 ([a, b, c] ++ A ++ S ++ P) 4 = c
    ∧ load (store m 2 ([a, b, c] ++ A ++ S ++ P)) 5 8 = A
    ∧ load (store m 2 ([a, b, c] ++ A ++ S ++ P)) 13 2 = S
    ∧ ∀ n, n ≤ P.length → load (store m 2 ([a, b, c] ++ A ++ S ++ P)) 15 n = P.take n := by
  refine ⟨?_, ?_, ?_, ?_, ?_, ?_⟩
  · simp [store]
  · simp [store]
    intro h
    exfalso
    omega
  · simp [store]
    intro h
    exfalso
    omega
  · have h := load_store_inside m 2 ([a, b, c] ++ A ++ S ++ P) 3 8 (by simp [hA, hS])
    rw [show (2 : Nat) + 3 = 5 from rfl] at h
    rw [h]
    simp [hA]
  · have h := load_store_inside m 2 ([a, b, c] ++ A ++ S ++ P) 11 2 (by simp [hA, hS]; omega)
    rw [show (2 : Nat) + 11 = 13 from rfl] at h
    rw [h]
    have h3 : [a, b, c] ++ A ++ S ++ P = ([a, b, c] ++ A) ++ (S ++ P) := by simp
    have hl : ([a, b, c] ++ A).length = 11 := by simp [hA]
    rw [h3, List.drop_left' hl]
    simp [hS]
  · intro n hn
    have h := load_store_inside m 2 ([a, b, c] ++ A ++ S ++ P) 13 n (by simp [hA, hS]; omega)
    rw [show (2 : Nat) + 13 = 15 from rfl] at h
    rw [h]
    have hl : ([a, b, c] ++ A ++ S).length = 13 := by simp [hA, hS]
    rw [List.drop_left' hl]

theorem wire_request_eq (total op bar width addr psize : Nat) (payload : List Byte) :
    wire_request total op bar width addr psize payload
      = le_bytes 2 total
        ++ ([byte op, byte bar, byte width] ++ le_bytes 8 addr ++ le_bytes 2 psize ++ payload)
        := by
  simp [wire_request]

/-- A well-formed request on the stream is received whole into the session buffer. -/
theorem recv_msg_request (s : State) (op bar width addr p : Nat) (payload tail : List Byte)
    (hp : payload.length = p) (hp4096 : p ≤ 4096)
    (hrx : s.rx = wire_request (15 + p) op bar width addr p payload ++ tail) :
    pciefw_recv_msg s
      = (0, { s with
              rx := tail, recvs := s.recvs ++ [2, 13 + p],
              msg := store s.msg 2
                ([byte op, byte bar, byte width] ++ le_bytes 8 addr ++ le_bytes 2 p ++ payload) })
      := by
  rw [wire_request_eq] at hrx
  have h := recv_buf_frame s s.msg PCIEFW_MSG_MAX_SIZE (15 + p)
    ([byte op, byte bar, byte width] ++ le_bytes 8 addr ++ le_bytes 2 p ++ payload) tail
    (by decide) (by omega) (by simp [PCIEFW_MSG_MAX_SIZE, OFF_DATA]; omega) (by omega)
    (by simp [hp]; omega) hrx
  unfold pciefw_recv_msg
  rw [h]
  have h15 : 15 + p - 2 = 13 + p := by omega
  have hpos : ((15 + p : Nat) : Int) > 0 := by omega
  dsimp only
  rw [if_pos hpos, h15]

/-- The state the dispatcher leaves after a well-formed request. -/
theorem on_read_request (s : State) (op bar width addr p : Nat) (payload tail : List Byte)
    (rest : List SelRes) (hsel : s.selects = SelRes.ready :: rest)
    (hop : op < 256) (haddr : addr < 2 ^ 64)
    (hp : payload.length = p) (hp4096 : p ≤ 4096)
    (hrx : s.rx = wire_request (15 + p) op bar width addr p payload ++ tail) :
    pciefw_on_read s =
      { s with
        selects := rest, rx := tail, recvs := s.recvs ++ [2, 13 + p],
        msg := store s.msg 2
          ([byte op, byte bar, byte width] ++ le_bytes 8 addr ++ le_bytes 2 p ++ payload),
        dma := if op = 3 then s.dma ++ [(addr, p, payload)] else s.dma,
        msi := if op = 3 then s.msi else if op = 7 then s.msi ++ [0] else s.msi } := by
  have hm := recv_msg_request { s with selects := rest } op bar width addr p payload tail
    hp hp4096 hrx
  obtain ⟨f2, -, -, f5, f13, f15⟩ := frame_fields s.msg (byte op) (byte bar) (byte width)
    (le_bytes 8 addr) (le_bytes 2 p) payload (le_bytes_length 8 addr) (le_bytes_length 2 p)
  have hpay := f15 p (by omega)
  rw [← hp, List.take_length, hp] at hpay
  have hA : le_value (le_bytes 8 addr) = addr := by
    rw [le_value_le_bytes]; omega
  have hS : le_value (le_bytes 2 p) = p := by
    rw [le_value_le_bytes]; omega
  have hopv : op % 256 = op := Nat.mod_eq_of_lt hop
  unfold pciefw_on_read
  rw [hsel]
  dsimp only
  rw [hm]
  simp only [OFF_OP, OFF_ADDR, OFF_SIZE, OFF_DATA, PCIEFW_OP_WRITE_MEM, PCIEFW_OP_MSI,
    f2, f5, f13, hA, hS, hpay, byte_val, hopv]
  by_cases h3 : op = 3
  · simp [h3]
  · by_cases h7 : op = 7
    · simp [h7]
    · simp [h3, h7]

theorem sock_send_tx (s : State) (bs : List Byte) (size : Nat) :
    (sock_send s bs size).2.tx = s.tx ++ [bs] := rfl

theorem send_buf_tx (s : State) (buf : Mem) (size : Nat) :
    (pciefw_send_buf s buf size).2.tx = s.tx ++ [load buf 0 size] := by
  unfold pciefw_send_buf
  by_cases h : u64 (sock_send s (load buf 0 size) size).1 = size <;> simp [h, sock_send_tx]

theorem send_msg_tx (s : State) :
    (pciefw_send_msg s).2.tx
      = s.tx ++ [load (store s.msg 0 (le_bytes 2 (OFF_DATA + le_value (load s.msg OFF_SIZE 2))))
          0 (OFF_DATA + le_value (load s.msg OFF_SIZE 2))] := by
  unfold pciefw_send_msg
  simp [send_buf_tx]

theorem take_le_bytes (n k v : Nat) (h : k ≤ n) : (le_bytes n v).take k = le_bytes k v := by
  induction k generalizing n v with
  | zero => simp [le_bytes]
  | succ k ih =>
    obtain ⟨n, rfl⟩ : ∃ j, n = j + 1 := ⟨n - 1, by omega⟩
    simp [le_bytes, ih n (v / 256) (by omega)]

/-- What sending the session buffer does: the header is filled in, the first
`size` bytes are handed to the socket, the result is that of the send. -/
theorem send_msg_eq (s : State) :
    pciefw_send_msg s
      = (if send_ok s (15 + le_value (load s.msg 13 2)) then 0 else -1,
          { s with
            msg := store s.msg 0 (le_bytes 2 (15 + le_value (load s.msg 13 2))),
            tx := s.tx ++ [load (store s.msg 0 (le_bytes 2 (15 + le_value (load s.msg 13 2))))
                    0 (15 + le_value (load s.msg 13 2))],
            sends := s.sends.tail }) := by
  unfold pciefw_send_msg pciefw_send_buf sock_send send_ok
  simp only [OFF_DATA, OFF_SIZE, send_ret]
  split <;> simp_all

theorem read_request_size (m : Mem) (addr width : Nat) :
    le_value (load (store (store (store m 5 (le_bytes 8 addr)) 4 [byte width]) 13 (le_bytes 2 0))
      13 2) = 0 := by
  have h := load_store_same (store (store m 5 (le_bytes 8 addr)) 4 [byte width]) 13 (le_bytes 2 0)
  rw [le_bytes_length] at h
  rw [h]
  rfl

/-- A complete reply behind any number of interrupted waits is received whole. -/
theorem recv_reply_frame (k : Nat) (s : State) (r : Mem) (rest : List SelRes)
    (body tail : List Byte) (hsel : s.selects = List.replicate k SelRes.eintr ++ SelRes.ready :: rest)
    (hbody : body.length = 9) (hrx : s.rx = le_bytes 2 11 ++ body ++ tail) :
    pciefw_recv_reply s r
      = { ret := 0, buf := store r 2 body,
          st := { s with selects := rest, rx := tail, recvs := s.recvs ++ [2, 9] } } := by
  induction k generalizing s with
  | zero =>
    simp only [List.replicate, List.nil_append] at hsel
    have h := recv_buf_frame { s with selects := rest } r REPLY_SIZE 11 body tail
      (by decide) (by decide) (by decide) (by decide) (by simp [hbody]) hrx
    unfold pciefw_recv_reply
    rw [hsel]
    unfold pciefw_recv_reply_loop
    rw [h]
    have hu : u64 11 = 11 := by decide
    simp [hu, REPLY_SIZE]
  | succ k ih =>
    have h := ih { s with selects := List.replicate k SelRes.eintr ++ SelRes.ready :: rest }
      rfl hrx
    unfold pciefw_recv_reply at h ⊢
    rw [hsel]
    simp only [List.replicate, List.cons_append]
    unfold pciefw_recv_reply_loop
    exact h

/-- The read transaction, with the send unfolded. -/
theorem send_read_common_eq (s : State) (addr width : Nat) (data : Mem) :
    pciefw_send_read_common s addr width data
      = if send_ok s 15 then
          (if (pciefw_recv_reply (sent_read s addr width) s.stack).ret ≠ 0 then
            { err := -1, data := data,
              st := (pciefw_recv_reply (sent_read s addr width) s.stack).st }
          else
            { err := 0,
              data := copy_reply_data width
                (pciefw_recv_reply (sent_read s addr width) s.stack).buf data,
              st := (pciefw_recv_reply (sent_read s addr width) s.stack).st })
        else { err := -1, data := data, st := sent_read s addr width } := by
  have hsz := read_request_size s.msg addr width
  unfold pciefw_send_read_common
  simp only [OFF_ADDR, OFF_WIDTH, OFF_SIZE, send_msg_eq, hsz, Nat.add_zero]
  by_cases h : send_ok s 15
  · have h2 : send_ok
        { s with
          msg := store (store (store s.msg 5 (le_bytes 8 addr)) 4 [byte width]) 13
            (le_bytes 2 0) } 15 := h
    simp only [h, h2, if_true, ne_eq, not_true_eq_false, if_false]
    rfl
  · have h2 : ¬ send_ok
        { s with
          msg := store (store (store s.msg 5 (le_bytes 8 addr)) 4 [byte width]) 13
            (le_bytes 2 0) } 15 := h
    simp only [h, h2, if_false]
    simp
    rfl

/-- The bytes of a read request: total size 15, the opcode and BAR bytes the
buffer holds, the width, the address, payload size 0. -/
theorem read_request_bytes (m : Mem) (addr width : Nat) :
    load (read_request m addr width) 0 15
      = le_bytes 2 15 ++ [m 2, m 3, byte width] ++ le_bytes 8 addr ++ le_bytes 2 0 := by
  simp [read_request, load, store, le_bytes]

theorem byte_val_self (b : Byte) : byte b.val = b := by
  apply Fin.ext
  simp [Nat.mod_eq_of_lt b.isLt]

/-- A read transaction whose send completes and whose reply arrives whole. -/
theorem send_read_common_reply (k : Nat) (s : State) (addr width : Nat) (data : Mem)
    (rest : List SelRes) (status : Byte) (d tail : List Byte)
    (hok : send_ok s 15)
    (hsel : s.selects = List.replicate k SelRes.eintr ++ SelRes.ready :: rest)
    (hd : d.length = 8) (hrx : s.rx = wire_reply status d ++ tail) :
    pciefw_send_read_common s addr width data
      = { err := 0,
          data := copy_reply_data width (store s.stack 2 (status :: d)) data,
          st := { sent_read s addr width with
                  selects := rest, rx := tail, recvs := s.recvs ++ [2, 9] } } := by
  have hr := recv_reply_frame k (sent_read s addr width) s.stack rest (status :: d) tail
    hsel (by simp [hd]) (by simpa [wire_reply, REPLY_SIZE] using hrx)
  rw [send_read_common_eq, if_pos hok, hr]
  simp
  rfl

/-- The width-typed copy out of a received reply, into zeroed memory. -/
theorem copy_reply_value (r : Mem) (status d0 d1 d2 d3 d4 d5 d6 d7 : Byte) (w : Nat)
    (hw : w = 1 ∨ w = 2 ∨ w = 4 ∨ w = 8) :
    le_value (load (copy_reply_data w
        (store r 2 [status, d0, d1, d2, d3, d4, d5, d6, d7]) zero_mem) 0 8)
      = le_value (List.take w [d0, d1, d2, d3, d4, d5, d6, d7]) := by
  rcases hw with rfl | rfl | rfl | rfl <;>
    simp [copy_reply_data, load, store, le_value, zero_mem, OFF_REPLY_DATA]

/-! ## Frame facts: what the transport leaves alone -/

theorem sock_recv_frame_fields (s : State) (len : Nat) :
    (sock_recv s len).st.bar_size = s.bar_size
    ∧ (sock_recv s len).st.regions = s.regions
    ∧ (sock_recv s len).st.tx = s.tx := by
  unfold sock_recv
  split_ifs <;> exact ⟨rfl, rfl, rfl⟩

theorem recv_buf_frame_fields (s : State) (buf : Mem) (max_size : Nat) :
    (pciefw_recv_buf s buf max_size).st.bar_size = s.bar_size
    ∧ (pciefw_recv_buf s buf max_size).st.regions = s.regions
    ∧ (pciefw_recv_buf s buf max_size).st.tx = s.tx := by
  have h1 := sock_recv_frame_fields s HEADER_SIZE
  have h2 := fun len => sock_recv_frame_fields (sock_recv s HEADER_SIZE).st len
  unfold pciefw_recv_buf
  dsimp only
  split_ifs
  · exact ⟨rfl, rfl, rfl⟩
  · exact h1
  · exact h1
  · exact ⟨((h2 _).1).trans h1.1, ((h2 _).2.1).trans h1.2.1, ((h2 _).2.2).trans h1.2.2⟩
  · exact ⟨((h2 _).1).trans h1.1, ((h2 _).2.1).trans h1.2.1, ((h2 _).2.2).trans h1.2.2⟩

theorem recv_reply_loop_frame_fields (sel : List SelRes) (s : State) (r : Mem) :
    (pciefw_recv_reply_loop sel s r).st.bar_size = s.bar_size
    ∧ (pciefw_recv_reply_loop sel s r).st.regions = s.regions
    ∧ (pciefw_recv_reply_loop sel s r).st.tx = s.tx := by
  induction sel generalizing s r with
  | nil => simp [pciefw_recv_reply_loop]
  | cons a rest ih =>
    cases a with
    | ready =>
      unfold pciefw_recv_reply_loop
      have hb := recv_buf_frame_fields { s with selects := rest } r REPLY_SIZE
      dsimp only
      split
      · exact hb
      · have h := ih (pciefw_recv_buf { s with selects := rest } r REPLY_SIZE).st
          (pciefw_recv_buf { s with selects := rest } r REPLY_SIZE).buf
        exact ⟨h.1.trans hb.1, h.2.1.trans hb.2.1, h.2.2.trans hb.2.2⟩
    | eintr =>
      unfold pciefw_recv_reply_loop
      exact ih { s with selects := rest } r
    | other => simp [pciefw_recv_reply_loop]

theorem send_read_common_frame_fields (s : State) (addr width : Nat) (data : Mem) :
    (pciefw_send_read_common s addr width data).st.bar_size = s.bar_size
    ∧ (pciefw_send_read_common s addr width data).st.regions = s.regions
    ∧ (pciefw_send_read_common s addr width data).st.tx
        = s.tx ++ [load (read_request s.msg addr width) 0 15] := by
  have h := recv_reply_loop_frame_fields (sent_read s addr width).selects
    (sent_read s addr width) s.stack
  rw [send_read_common_eq]
  unfold pciefw_recv_reply
  split_ifs
  · exact h
  · exact h
  · exact ⟨rfl, rfl, rfl⟩

/-! ## BAR discovery: one iteration -/

theorem send_write_config_eq (s : State) (addr data : Nat) :
    pciefw_send_write_config s addr 4 data
      = (if send_ok s 19 then 0 else -1,
          { s with
            msg := store (store (store (store (store (store s.msg 2 [byte 1]) 4 [byte 4]) 5
              (le_bytes 8 addr)) 13 (le_bytes 2 4)) 15 (le_bytes 8 data)) 0 (le_bytes 2 19),
            tx := s.tx ++ [wire_request 19 1 (s.msg 3).val 4 addr 4 (le_bytes 4 data)],
            sends := s.sends.tail }) := by
  have hsz : le_value (load (store (store (store (store (store s.msg 2 [byte 1]) 4 [byte 4]) 5
      (le_bytes 8 addr)) 13 (le_bytes 2 4)) 15 (le_bytes 8 data)) 13 2) = 4 := by
    rw [load_store_outside _ 15 _ 13 2 (by simp)]
    have h := load_store_same (store (store (store s.msg 2 [byte 1]) 4 [byte 4]) 5
      (le_bytes 8 addr)) 13 (le_bytes 2 4)
    rw [le_bytes_length] at h
    rw [h]
    rfl
  have hbytes : load (store (store (store (store (store (store s.msg 2 [byte 1]) 4 [byte 4]) 5
      (le_bytes 8 addr)) 13 (le_bytes 2 4)) 15 (le_bytes 8 data)) 0 (le_bytes 2 19)) 0 19
      = wire_request 19 1 (s.msg 3).val 4 addr 4 (le_bytes 4 data) := by
    simp [wire_request, load, store, le_bytes, byte_val_self]
  unfold pciefw_send_write_config
  simp only [OFF_OP, OFF_WIDTH, OFF_ADDR, OFF_SIZE, OFF_DATA, PCIEFW_OP_WRITE_CONFIG,
    send_msg_eq, hsz, hbytes]
  by_cases h : send_ok s 19
  · have h2 : send_ok
        { s with
          msg := store (store (store (store (store s.msg 2 [byte 1]) 4 [byte 4]) 5
            (le_bytes 8 addr)) 13 (le_bytes 2 4)) 15 (le_bytes 8 data) } 19 := h
    simp only [h, h2, if_true, ne_eq, not_true_eq_false, if_false]
  · have h2 : ¬ send_ok
        { s with
          msg := store (store (store (store (store s.msg 2 [byte 1]) 4 [byte 4]) 5
            (le_bytes 8 addr)) 13 (le_bytes 2 4)) 15 (le_bytes 8 data) } 19 := h
    simp only [h, h2, if_false]
    simp

theorem pci_init_bar_eq (s : State) (i : Nat) :
    pciefw_pci_init_bar s i
      = if (probe_write s i).1 ≠ 0 then (probe_write s i).2
        else if (probe_read s i).err ≠ 0 then (probe_read s i).st
        else if neg32 (probe_value s i &&& 0xFFFFFFF0) = 0 then (probe_read s i).st
        else
          { (probe_read s i).st with
            bar_size := Function.update (probe_read s i).st.bar_size i
              (neg32 (probe_value s i &&& 0xFFFFFFF0)),
            regions := (probe_read s i).st.regions
              ++ [(i, neg32 (probe_value s i &&& 0xFFFFFFF0))] } := rfl

theorem probe_write_fields (s : State) (i : Nat) :
    (probe_write s i).2.bar_size = Function.update s.bar_size i 0
    ∧ (probe_write s i).2.regions = s.regions
    ∧ (probe_write s i).2.tx
        = s.tx ++ [wire_request 19 1 (s.msg 3).val 4 (config_addr i) 4 (le_bytes 4 (2 ^ 64 - 1))]
    := by
  unfold probe_write
  rw [send_write_config_eq]
  exact ⟨rfl, rfl, rfl⟩

theorem probe_read_fields (s : State) (i : Nat) :
    (probe_read s i).st.bar_size = Function.update s.bar_size i 0
    ∧ (probe_read s i).st.regions = s.regions
    ∧ (probe_read s i).st.tx
        = s.tx ++ [wire_request 19 1 (s.msg 3).val 4 (config_addr i) 4 (le_bytes 4 (2 ^ 64 - 1)),
            wire_request 15 0 ((probe_write s i).2.msg 3).val 4 (config_addr i) 0 []] := by
  obtain ⟨h1, h2, h3⟩ := probe_write_fields s i
  have h := send_read_common_frame_fields
    { (probe_write s i).2 with msg := store (probe_write s i).2.msg 2 [byte 0] }
    (config_addr i) 4 (probe_write s i).2.stack
  unfold probe_read pciefw_send_read_config
  simp only [OFF_OP, PCIEFW_OP_READ_CONFIG]
  refine ⟨h.1.trans h1, h.2.1.trans h2, ?_⟩
  rw [h.2.2]
  simp only [read_request_bytes, h3]
  simp [wire_request, store, byte_val_self]

theorem probe_addrs_append (a b : List (List Byte)) :
    probe_addrs (a ++ b) = probe_addrs a ++ probe_addrs b := by
  simp [probe_addrs]

theorem probe_addrs_write (b a : Nat) (p : List Byte) (ha : a < 2 ^ 64) :
    probe_addrs [wire_request 19 1 b 4 a 4 p] = [a] := by
  have hv : le_value (le_bytes 8 a) = a := by
    rw [le_value_le_bytes]
    omega
  have hl : (le_bytes 2 19 ++ [byte 1, byte b, byte 4]).length = 5 := by simp
  have hd : List.take 8 (List.drop 5 (wire_request 19 1 b 4 a 4 p)) = le_bytes 8 a := by
    unfold wire_request
    rw [List.append_assoc, List.append_assoc, List.drop_left' hl]
    simp
  have h2 : (wire_request 19 1 b 4 a 4 p)[2]?.getD 0 = byte 1 := by
    simp [wire_request, le_bytes]
  simp [probe_addrs, List.filter, h2, hd, hv, PCIEFW_OP_WRITE_CONFIG]

theorem probe_addrs_read (b a : Nat) :
    probe_addrs [wire_request 15 0 b 4 a 0 []] = [] := by
  have h2 : (wire_request 15 0 b 4 a 0 [])[2]?.getD 0 = byte 0 := by
    simp [wire_request, le_bytes]
  have hne : ¬ (byte 0 = byte 1) := by decide
  simp [probe_addrs, List.filter, h2, hne, PCIEFW_OP_WRITE_CONFIG]

theorem config_addr_lt (i : Nat) : config_addr i < 2 ^ 64 := by
  unfold config_addr
  omega

/-- What one iteration of the probing loop does to the table, the regions and
the send log. -/
theorem pci_init_bar_spec (s : State) (i : Nat) :
    (∀ j, j ≠ i → (pciefw_pci_init_bar s i).bar_size j = s.bar_size j)
    ∧ (pciefw_pci_init_bar s i).bar_size i
        = (if probe_failed s i then 0 else neg32 (probe_value s i &&& 0xFFFFFFF0))
    ∧ (pciefw_pci_init_bar s i).regions
        = s.regions ++ (if (pciefw_pci_init_bar s i).bar_size i = 0 then []
            else [(i, (pciefw_pci_init_bar s i).bar_size i)])
    ∧ ∃ L, (pciefw_pci_init_bar s i).tx = s.tx ++ L ∧ probe_addrs L = [config_addr i] := by
  obtain ⟨w1, w2, w3⟩ := probe_write_fields s i
  obtain ⟨r1, r2, r3⟩ := probe_read_fields s i
  have hw := probe_addrs_write (s.msg 3).val (config_addr i) (le_bytes 4 (2 ^ 64 - 1))
    (config_addr_lt i)
  have hr := probe_addrs_read ((probe_write s i).2.msg 3).val (config_addr i)
  have hwr : probe_addrs
      [wire_request 19 1 (s.msg 3).val 4 (config_addr i) 4 (le_bytes 4 (2 ^ 64 - 1)),
        wire_request 15 0 ((probe_write s i).2.msg 3).val 4 (config_addr i) 0 []]
      = [config_addr i] := by
    have h := probe_addrs_append
      [wire_request 19 1 (s.msg 3).val 4 (config_addr i) 4 (le_bytes 4 (2 ^ 64 - 1))]
      [wire_request 15 0 ((probe_write s i).2.msg 3).val 4 (config_addr i) 0 []]
    rw [hw, hr] at h
    simpa using h
  rw [pci_init_bar_eq]
  by_cases c1 : (probe_write s i).1 ≠ 0
  · have hf : probe_failed s i := Or.inl c1
    rw [if_pos c1, if_pos hf, w1, w2]
    refine ⟨fun j hj => Function.update_noteq hj _ _, by simp, by simp, _, w3, hw⟩
  · rw [if_neg c1]
    by_cases c2 : (probe_read s i).err ≠ 0
    · have hf : probe_failed s i := Or.inr c2
      rw [if_pos c2, if_pos hf, r1, r2]
      refine ⟨fun j hj => Function.update_noteq hj _ _, by simp, by simp, _, r3, hwr⟩
    · have hf : ¬ probe_failed s i := by
        intro h
        rcases h with h | h
        · exact c1 h
        · exact c2 h
      rw [if_neg c2, if_neg hf]
      by_cases c3 : neg32 (probe_value s i &&& 0xFFFFFFF0) = 0
      · rw [if_pos c3, r1, r2, c3]
        refine ⟨fun j hj => Function.update_noteq hj _ _, by simp, by simp, _, r3, hwr⟩
      · rw [if_neg c3]
        refine ⟨fun j hj => ?_, by simp, ?_, _, r3, hwr⟩
        · simp only [r1]
          rw [Function.update_noteq hj, Function.update_noteq hj]
        · simp [r2, c3]

theorem probe_state_succ (s : State) (n : Nat) :
    probe_state s (n + 1) = pciefw_pci_init_bar (probe_state s n) n := by
  simp [probe_state, List.range_succ]

theorem mapped_bars_succ (f : Nat → Nat) (n : Nat) :
    mapped_bars f (n + 1) = mapped_bars f n ++ (if f n = 0 then [] else [(n, f n)]) := by
  unfold mapped_bars
  rw [List.range_succ, List.filter_append, List.map_append]
  by_cases h : f n = 0 <;> simp [h]

theorem mapped_bars_congr (f g : Nat → Nat) (n : Nat) (h : ∀ j, j < n → f j = g j) :
    mapped_bars f n = mapped_bars g n := by
  induction n with
  | zero => rfl
  | succ n ih =>
    rw [mapped_bars_succ, mapped_bars_succ, ih (fun j hj => h j (by omega)), h n (by omega)]

/-- What the first `n` iterations of the probing loop do. -/
theorem probe_state_spec (s : State) (n : Nat) :
    (∀ j, n ≤ j → (probe_state s n).bar_size j = s.bar_size j)
    ∧ (∀ j, j < n → (probe_state s n).bar_size j
        = (pciefw_pci_init_bar (probe_state s j) j).bar_size j)
    ∧ (probe_state s n).regions = s.regions ++ mapped_bars (probe_state s n).bar_size n
    ∧ ∃ L, (probe_state s n).tx = s.tx ++ L ∧ probe_addrs L = (List.range n).map config_addr := by
  induction n with
  | zero => exact ⟨fun _ _ => rfl, fun j hj => absurd hj (by omega), by simp [probe_state, mapped_bars],
      [], by simp [probe_state], rfl⟩
  | succ n ih =>
    obtain ⟨i1, i2, i3, L, i4, i5⟩ := ih
    obtain ⟨b1, -, b3, M, b4, b5⟩ := pci_init_bar_spec (probe_state s n) n
    rw [probe_state_succ]
    refine ⟨?_, ?_, ?_, L ++ M, ?_, ?_⟩
    · intro j hj
      rw [b1 j (by omega), i1 j (by omega)]
    · intro j hj
      by_cases hjn : j = n
      · subst hjn
        rfl
      · rw [b1 j hjn]
        exact i2 j (by omega)
    · rw [b3, i3, mapped_bars_succ, List.append_assoc]
      rw [mapped_bars_congr (pciefw_pci_init_bar (probe_state s n) n).bar_size
        (probe_state s n).bar_size n (fun j hj => b1 j (by omega))]
    · rw [b4, i4, List.append_assoc]
    · rw [probe_addrs_append, i5, b5, List.range_succ, List.map_append]
      rfl

theorem mem_mapped_bars (f : Nat → Nat) (n i sz : Nat) :
    (i, sz) ∈ mapped_bars f n ↔ i < n ∧ f i ≠ 0 ∧ sz = f i := by
  simp only [mapped_bars, List.mem_map, List.mem_filter, List.mem_range, decide_eq_true_eq,
    Prod.mk.injEq]
  constructor
  · rintro ⟨j, ⟨hj, hne⟩, rfl, rfl⟩
    exact ⟨hj, hne, rfl⟩
  · rintro ⟨hi, hne, rfl⟩
    exact ⟨i, ⟨hi, hne⟩, rfl, rfl⟩

/-- Masking with 0xFFFFFFF0 clears the low four bits of a 32-bit value. -/
theorem and_flag_mask (v : Nat) (hv : v < 2 ^ 32) : v &&& 0xFFFFFFF0 = v - v % 16 := by
  have h1 : v - v % 16 = (v >>> 4) <<< 4 := by
    rw [Nat.shiftRight_eq_div_pow, Nat.shiftLeft_eq]
    omega
  have h2 : (0xFFFFFFF0 : Nat) = (2 ^ 28 - 1) <<< 4 := by decide
  rw [h1, h2]
  apply Nat.eq_of_testBit_eq
  intro i
  simp only [Nat.testBit_and, Nat.testBit_shiftLeft, Nat.testBit_shiftRight,
    Nat.testBit_two_pow_sub_one]
  by_cases hi : 4 ≤ i
  · have e : 4 + (i - 4) = i := by omega
    rw [e]
    by_cases h28 : i - 4 < 28
    · simp [hi, h28]
    · have hlt : v < 2 ^ i :=
        lt_of_lt_of_le hv (Nat.pow_le_pow_right (by decide) (by omega))
      simp [hi, h28, Nat.testBit_lt_two_pow hlt]
  · simp [hi]

theorem neg32_eq (m : Nat) (hm : m < 2 ^ 32) :
    neg32 m = if m = 0 then 0 else 2 ^ 32 - m := by
  unfold neg32
  split <;> omega

theorem probe_value_lt (s : State) (i : Nat) : probe_value s i < 2 ^ 32 := by
  have h := le_value_lt (load (probe_read s i).data 0 4)
  rw [load_length] at h
  have h4 : (256 : Nat) ^ 4 = 2 ^ 32 := by norm_num
  unfold probe_value
  omega

theorem pci_init_connected (h : Host) (s : State)
    (hmsg : h.msg_alloc = true) (hlist : h.optlist_alloc = true)
    (hopts : h.opts_created = true) (hsock : h.sock ≠ -1) :
    pciefw_pci_init h s = (0, probe_state s 6) := by
  unfold pciefw_pci_init
  simp [hmsg, hlist, hopts, hsock, probe_state, PCI_NBARS]

/-! ## Failed receives -/

theorem sock_recv_full (s : State) (len : Nat) (h : len ≤ s.rx.length) :
    sock_recv s len
      = { n := (len : Int), bytes := s.rx.take len,
          st := { s with recvs := s.recvs ++ [len], rx := s.rx.drop len } } := by
  unfold sock_recv
  rw [if_pos h]

theorem sock_recv_short (s : State) (len : Nat) (h : s.rx.length < len) :
    (sock_recv s len).n < (len : Int) := by
  unfold sock_recv
  rw [if_neg (by omega)]
  split
  · cases s.rx_err <;> simp <;> omega
  · simp
    omega

/-- In stream mode the receive never returns 0. -/
theorem recv_buf_ret_ne_zero (s : State) (buf : Mem) (max_size : Nat) :
    (pciefw_recv_buf s buf max_size).ret ≠ 0 := by
  unfold pciefw_recv_buf
  dsimp only
  have hneg : (-1 : Int) ≠ 0 := by decide
  split_ifs with c1 c2 c3 c4
  · exact hneg
  · exact hneg
  · exact hneg
  · exact hneg
  · intro h0
    have hz : le_value (sock_recv s HEADER_SIZE).bytes = 0 := by
      simpa using h0
    rw [hz] at c4
    have hge := sock_recv_n_ge (sock_recv s HEADER_SIZE).st (size_sub 0 HEADER_SIZE)
    have hs : s64 (size_sub 0 HEADER_SIZE) = -2 := by decide
    rw [not_not, hs] at c4
    omega

/-- The receive of a reply returns the reply size only when a whole frame
declaring that size was on the stream. -/
theorem recv_buf_reply_size (s : State) (buf : Mem)
    (h : u64 (pciefw_recv_buf s buf REPLY_SIZE).ret = REPLY_SIZE) : reply_frame s := by
  unfold pciefw_recv_buf at h
  dsimp only at h
  have hneg : ¬ u64 (-1) = REPLY_SIZE := by decide
  split_ifs at h with c1 c2 c3 c4
  · exact absurd h hneg
  · exact absurd h hneg
  · exact absurd h hneg
  · exact absurd h hneg
  · have hlen2 : 2 ≤ s.rx.length := by
      by_contra hc
      have hs := sock_recv_short s 2 (by omega)
      have hg := sock_recv_n_ge s 2
      have hu : u64 (sock_recv s HEADER_SIZE).n = 2 := by
        simpa [HEADER_SIZE] using c2
      unfold u64 at hu
      simp only [HEADER_SIZE] at hu
      omega
    have e1 := sock_recv_full s 2 hlen2
    simp only [HEADER_SIZE, e1, REPLY_SIZE] at h c3 c4
    have hle : le_value (List.take 2 s.rx) ≤ 11 := by omega
    have hv : le_value (List.take 2 s.rx) = 11 := by
      rw [u64_natCast _ (by omega)] at h
      exact h
    have htl : (List.take 2 s.rx).length = 2 := by
      rw [List.length_take]
      omega
    have hhdr : List.take 2 s.rx = le_bytes 2 11 := by
      have hb := le_bytes_le_value (List.take 2 s.rx)
      rw [htl, hv] at hb
      exact hb.symm
    rw [hv] at c4
    have hs9 : s64 (size_sub 11 2) = 9 := by decide
    have hz9 : size_sub 11 2 = 9 := by decide
    rw [not_not, hs9, hz9] at c4
    have hlen9 : 9 ≤ (List.drop 2 s.rx).length := by
      by_contra hc
      have hs := sock_recv_short
        { s with recvs := s.recvs ++ [2], rx := List.drop 2 s.rx } 9
        (by
          show (List.drop 2 s.rx).length < 9
          omega)
      omega
    rw [List.length_drop] at hlen9
    exact ⟨hhdr, by
      show 11 ≤ s.rx.length
      omega⟩

/-- The reply receive succeeds only when the wait ended readable and a whole
reply frame was on the stream. -/
theorem recv_reply_loop_ok (sel : List SelRes) (s : State) (r : Mem)
    (h : (pciefw_recv_reply_loop sel s r).ret = 0) :
    (sel.dropWhile (fun x => decide (x = SelRes.eintr))).head? = some SelRes.ready
    ∧ reply_frame s := by
  have hneg : ¬ ((-1 : Int) = 0) := by decide
  induction sel generalizing s r with
  | nil =>
    unfold pciefw_recv_reply_loop at h
    exact absurd h hneg
  | cons a rest ih =>
    cases a with
    | ready =>
      unfold pciefw_recv_reply_loop at h
      dsimp only at h
      rw [if_pos (recv_buf_ret_ne_zero _ _ _)] at h
      dsimp only at h
      split_ifs at h with c
      exact ⟨by simp, recv_buf_reply_size { s with selects := rest } r c⟩
    | eintr =>
      unfold pciefw_recv_reply_loop at h
      have hi := ih { s with selects := rest } r h
      exact ⟨by simpa using hi.1, hi.2⟩
    | other =>
      unfold pciefw_recv_reply_loop at h
      exact absurd h hneg

/-- A read transaction fails unless the send completes, the wait ends readable
and a whole reply frame is on the stream. -/
theorem send_read_common_fail (s : State) (addr width : Nat) (data : Mem)
    (hfail : ¬ send_ok s 15 ∨ ¬ reply_ready s ∨ ¬ reply_frame s) :
    (pciefw_send_read_common s addr width data).err = -1 := by
  rw [send_read_common_eq]
  by_cases hs : send_ok s 15
  · rw [if_pos hs]
    by_cases hr : (pciefw_recv_reply (sent_read s addr width) s.stack).ret ≠ 0
    · rw [if_pos hr]
    · exfalso
      rw [not_not] at hr
      have h := recv_reply_loop_ok (sent_read s addr width).selects (sent_read s addr width)
        s.stack hr
      have h1 : reply_ready s := h.1
      have h2 : reply_frame s := h.2
      rcases hfail with hf | hf | hf
      · exact hf hs
      · exact hf h1
      · exact hf h2
  · rw [if_neg hs]

theorem load_eq_iff (a b : Mem) (off n : Nat) :
    load a off n = load b off n ↔ ∀ i, i < n → a (off + i) = b (off + i) := by
  induction n generalizing off with
  | zero => simp [load]
  | succ n ih =>
    simp only [load, List.cons.injEq, ih]
    constructor
    · rintro ⟨h0, h1⟩ i hi
      rcases Nat.eq_zero_or_pos i with rfl | hpos
      · exact h0
      · have := h1 (i - 1) (by omega)
        rwa [show off + 1 + (i - 1) = off + i by omega] at this
    · intro h
      refine ⟨h 0 (by omega), fun i hi => ?_⟩
      have := h (i + 1) (by omega)
      rwa [show off + (i + 1) = off + 1 + i by omega] at this

theorem load_sub (a b : Mem) (off n k j : Nat) (h : load a off n = load b off n)
    (hk : k + j ≤ n) : load a (off + k) j = load b (off + k) j := by
  rw [load_eq_iff] at h ⊢
  intro i hi
  have := h (k + i) (by omega)
  rwa [← Nat.add_assoc] at this

/-- The bytes `pciefw_send_msg` emits: the total size, then the buffer from offset 2. -/
theorem send_msg_bytes (s : State) (p : Nat) (hp : le_value (load s.msg 13 2) = p) :
    (pciefw_send_msg s).2.msg = store s.msg 0 (le_bytes 2 (15 + p))
    ∧ (pciefw_send_msg s).2.tx = s.tx ++ [load (pciefw_send_msg s).2.msg 0 (15 + p)]
    ∧ load (pciefw_send_msg s).2.msg 0 (15 + p) = le_bytes 2 (15 + p) ++ load s.msg 2 (13 + p)
    := by
  rw [send_msg_eq, hp]
  refine ⟨rfl, rfl, ?_⟩
  dsimp only
  rw [show 15 + p = 2 + (13 + p) by omega, load_add]
  have h1 := load_store_same s.msg 0 (le_bytes 2 (2 + (13 + p)))
  rw [le_bytes_length] at h1
  rw [h1, Nat.zero_add, load_store_outside _ 0 _ 2 (13 + p) (by simp)]

/-! ## Claims -/

/-- C1: for a BAR index below 6, a width w in {1,2,4,8}, a 64-bit address and a
64-bit data value, the bytes pciefw_send_write_mem hands to the socket are the
packed little-endian Request of the wire-format table: total size 15 + w at
offset 0, opcode 3, the BAR index, w, the address as uint64, payload size w as
uint16, then the first w bytes of the little-endian encoding of the data;
15 + w bytes in all, and every field is encoded without loss. -/
theorem send_write_mem_wire_format (s : State) (bar addr w data : Nat)
    (hbar : bar < 6) (hw : w = 1 ∨ w = 2 ∨ w = 4 ∨ w = 8)
    (haddr : addr < 2 ^ 64) (hdata : data < 2 ^ 64) :
    (pciefw_send_write_mem s bar addr w data).2.tx
      = s.tx ++ [wire_request (15 + w) 3 bar w addr w (List.take w (le_bytes 8 data))]
    ∧ (wire_request (15 + w) 3 bar w addr w (List.take w (le_bytes 8 data))).length = 15 + w
    ∧ le_value (le_bytes 2 (15 + w)) = 15 + w
    ∧ (byte bar).val = bar ∧ (byte w).val = w
    ∧ le_value (le_bytes 8 addr) = addr
    ∧ le_value (le_bytes 2 w) = w
    ∧ le_value (le_bytes 8 data) = data
    ∧ List.take w (le_bytes 8 data) = le_bytes w data := by
  have hw8 : w ≤ 8 := by omega
  refine ⟨?_, ?_, ?_, ?_, ?_, ?_, ?_, ?_, ?_⟩
  · have h2 : ∀ (c : Prop) [Decidable c] (a b : Int) (x : State),
        (if c then (a, x) else (b, x)).2 = x := by
      intro c _ a b x
      split <;> rfl
    unfold pciefw_send_write_mem
    simp only [h2, send_msg_tx]
    rcases hw with rfl | rfl | rfl | rfl <;>
      simp [wire_request, le_bytes, le_value, load, store, OFF_OP, OFF_BAR, OFF_WIDTH,
        OFF_ADDR, OFF_SIZE, OFF_DATA, PCIEFW_OP_WRITE_MEM]
  · simp [wire_request, hw8]
    omega
  · rw [le_value_le_bytes]
    omega
  · rw [byte_val]
    omega
  · rw [byte_val]
    omega
  · rw [le_value_le_bytes]
    omega
  · rw [le_value_le_bytes]
    omega
  · rw [le_value_le_bytes]
    omega
  · exact take_le_bytes 8 w data hw8

/-- C1 at BAR 2, address 0x1000, width 4, data 0x01020304. -/
theorem send_write_mem_wire_format_witness :
    (pciefw_send_write_mem idle 2 0x1000 4 0x01020304).2.tx
      = [[19, 0, 3, 2, 4, 0, 0x10, 0, 0, 0, 0, 0, 0, 4, 0, 4, 3, 2, 1]] :=
  (send_write_mem_wire_format idle 2 0x1000 4 0x01020304 (by decide)
    (Or.inr (Or.inr (Or.inl rfl))) (by decide) (by decide)).1.trans (by decide)

/-- C2: when the send of the read request completes and an 11-byte Reply
(status and data bytes d0..d7 arbitrary) is the next frame on the stream,
pciefw_mmio_read returns, for w in {1,2,4,8}, the little-endian integer of the
first w data bytes (zero-extended, as the 64-bit result starts from 0), and
pciefw_read_config returns the same integer as a 32-bit value for w in
{1,2,4}.  The request sent is the 15-byte frame with the read opcode (2 for a
memory read, 0 for a configuration read), the width, the address and payload
size 0. -/
theorem read_returns_reply_data (s : State) (bar addr w k : Nat) (rest : List SelRes)
    (status d0 d1 d2 d3 d4 d5 d6 d7 : Byte) (tail : List Byte)
    (hok : send_ok s 15)
    (hsel : s.selects = List.replicate k SelRes.eintr ++ SelRes.ready :: rest)
    (hrx : s.rx = wire_reply status [d0, d1, d2, d3, d4, d5, d6, d7] ++ tail) :
    (w = 1 ∨ w = 2 ∨ w = 4 ∨ w = 8 →
      (pciefw_mmio_read s bar addr w).1
        = le_value (List.take w [d0, d1, d2, d3, d4, d5, d6, d7]))
    ∧ (pciefw_mmio_read s bar addr w).2.tx = s.tx ++ [wire_request 15 2 bar w addr 0 []]
    ∧ (w = 1 ∨ w = 2 ∨ w = 4 →
      (pciefw_read_config s addr w).1
        = le_value (List.take w [d0, d1, d2, d3, d4, d5, d6, d7]))
    ∧ (pciefw_read_config s addr w).2.tx
        = s.tx ++ [wire_request 15 0 (s.msg 3).val w addr 0 []] := by
  have hm := send_read_common_reply k
    { s with msg := store (store s.msg 2 [byte 2]) 3 [byte bar] } addr w zero_mem rest status
    [d0, d1, d2, d3, d4, d5, d6, d7] tail hok hsel rfl hrx
  have hc := send_read_common_reply k
    { s with msg := store s.msg 2 [byte 0] } addr w zero_mem rest status
    [d0, d1, d2, d3, d4, d5, d6, d7] tail hok hsel rfl hrx
  refine ⟨?_, ?_, ?_, ?_⟩
  · intro hw
    unfold pciefw_mmio_read pciefw_send_read_mem
    simp only [OFF_OP, OFF_BAR, PCIEFW_OP_READ_MEM]
    rw [hm]
    simp only [ne_eq, not_true_eq_false, if_false]
    exact copy_reply_value s.stack status d0 d1 d2 d3 d4 d5 d6 d7 w hw
  · unfold pciefw_mmio_read pciefw_send_read_mem
    simp only [OFF_OP, OFF_BAR, PCIEFW_OP_READ_MEM]
    rw [hm]
    simp only [sent_read, read_request_bytes]
    simp [wire_request, store]
  · intro hw
    unfold pciefw_read_config pciefw_send_read_config
    simp only [OFF_OP, PCIEFW_OP_READ_CONFIG]
    rw [hc]
    simp only [ne_eq, not_true_eq_false, if_false]
    rw [copy_reply_value s.stack status d0 d1 d2 d3 d4 d5 d6 d7 w
      (by rcases hw with h | h | h <;> simp [h])]
    apply Nat.mod_eq_of_lt
    have hlt := le_value_lt (List.take w [d0, d1, d2, d3, d4, d5, d6, d7])
    have hlen : (List.take w [d0, d1, d2, d3, d4, d5, d6, d7]).length ≤ 4 := by
      rcases hw with rfl | rfl | rfl <;> simp
    have h1 : 256 ^ (List.take w [d0, d1, d2, d3, d4, d5, d6, d7]).length ≤ 256 ^ 4 :=
      Nat.pow_le_pow_right (by decide) hlen
    have h2 : (256 : Nat) ^ 4 = 2 ^ 32 := by norm_num
    omega
  · unfold pciefw_read_config pciefw_send_read_config
    simp only [OFF_OP, PCIEFW_OP_READ_CONFIG]
    rw [hc]
    simp only [sent_read, read_request_bytes]
    simp [wire_request, store, byte_val_self]

/-- C2 at the read of the specification: read-config, width 4, address 0x10,
answered by status 0 and data EF BE AD DE 00 00 00 00. -/
theorem read_returns_reply_data_witness :
    send_ok
        { idle with
          selects := [SelRes.ready],
          rx := wire_reply 0 [0xEF, 0xBE, 0xAD, 0xDE, 0, 0, 0, 0] } 15
    ∧ (pciefw_read_config
        { idle with
          selects := [SelRes.ready],
          rx := wire_reply 0 [0xEF, 0xBE, 0xAD, 0xDE, 0, 0, 0, 0] } 0x10 4).1 = 0xDEADBEEF
    ∧ (pciefw_read_config
        { idle with
          selects := [SelRes.ready],
          rx := wire_reply 0 [0xEF, 0xBE, 0xAD, 0xDE, 0, 0, 0, 0] } 0x10 4).2.tx
        = [wire_request 15 0 0 4 0x10 0 []] :=
  have h := read_returns_reply_data
    { idle with
      selects := [SelRes.ready],
      rx := wire_reply 0 [0xEF, 0xBE, 0xAD, 0xDE, 0, 0, 0, 0] }
    0 0x10 4 0 [] 0 0xEF 0xBE 0xAD 0xDE 0 0 0 0 [] (by decide) rfl (by decide)
  ⟨by decide, (h.2.2.1 (Or.inr (Or.inr rfl))).trans (by decide), h.2.2.2⟩

/-- C3: when the probe of BAR i succeeds and its read-config returns the 32-bit
value v, let m be v with its low 4 bits cleared (v AND 0xFFFFFFF0, which is
v - v mod 16).  If m = 0 the table entry of the BAR is 0 and no region is
registered for it.  Otherwise the entry is the 32-bit complement of m plus
one, modulo 2^32 (that is 2^32 - m), and exactly one region, of that size, is
registered for the BAR.  The mask 0xFFFFFFF0 decodes to 0x10, and 0 to 0. -/
theorem pci_init_bar_size_decode (h : Host) (s : State) (i v : Nat)
    (hmsg : h.msg_alloc = true) (hlist : h.optlist_alloc = true)
    (hopts : h.opts_created = true) (hsock : h.sock ≠ -1) (hi : i < 6)
    (hok : ¬ probe_failed (probe_state s i) i)
    (hv : probe_value (probe_state s i) i = v) :
    v < 2 ^ 32
    ∧ v &&& 0xFFFFFFF0 = v - v % 16
    ∧ (pciefw_pci_init h s).2.regions
        = s.regions ++ mapped_bars (pciefw_pci_init h s).2.bar_size 6
    ∧ (v &&& 0xFFFFFFF0 = 0 →
        (pciefw_pci_init h s).2.bar_size i = 0
        ∧ ∀ sz, (i, sz) ∉ mapped_bars (pciefw_pci_init h s).2.bar_size 6)
    ∧ (v &&& 0xFFFFFFF0 ≠ 0 →
        (pciefw_pci_init h s).2.bar_size i = ((2 ^ 32 - 1 - (v &&& 0xFFFFFFF0)) + 1) % 2 ^ 32
        ∧ (pciefw_pci_init h s).2.bar_size i = 2 ^ 32 - (v &&& 0xFFFFFFF0)
        ∧ ∀ sz, (i, sz) ∈ mapped_bars (pciefw_pci_init h s).2.bar_size 6
            ↔ sz = ((2 ^ 32 - 1 - (v &&& 0xFFFFFFF0)) + 1) % 2 ^ 32)
    ∧ neg32 0xFFFFFFF0 = 0x10 ∧ neg32 0 = 0 := by
  have hlt : v < 2 ^ 32 := by
    rw [← hv]
    exact probe_value_lt _ _
  have hm : v &&& 0xFFFFFFF0 < 2 ^ 32 := lt_of_le_of_lt Nat.and_le_left hlt
  rw [pci_init_connected h s hmsg hlist hopts hsock]
  obtain ⟨-, p2, p3, -⟩ := probe_state_spec s 6
  have he : (probe_state s 6).bar_size i = neg32 (v &&& 0xFFFFFFF0) := by
    rw [p2 i hi, (pci_init_bar_spec (probe_state s i) i).2.1, if_neg hok, hv]
  have hn := neg32_eq (v &&& 0xFFFFFFF0) hm
  refine ⟨hlt, and_flag_mask v hlt, p3, ?_, ?_, by decide, by decide⟩
  · intro h0
    have he0 : (probe_state s 6).bar_size i = 0 := by
      rw [he, hn, if_pos h0]
    exact ⟨he0, fun sz hmem => ((mem_mapped_bars _ _ _ _).1 hmem).2.1 he0⟩
  · intro h0
    have he1 : (probe_state s 6).bar_size i = 2 ^ 32 - (v &&& 0xFFFFFFF0) := by
      rw [he, hn, if_neg h0]
    have he2 : (probe_state s 6).bar_size i
        = ((2 ^ 32 - 1 - (v &&& 0xFFFFFFF0)) + 1) % 2 ^ 32 := he
    refine ⟨he2, he1, fun sz => ?_⟩
    rw [mem_mapped_bars, ← he2]
    constructor
    · rintro ⟨-, -, e⟩
      exact e
    · intro e
      have hne : (probe_state s 6).bar_size i ≠ 0 := by
        rw [he1]
        exact Nat.sub_ne_zero_of_lt hm
      exact ⟨hi, hne, e⟩

/-- C3 on a remote end that answers the probe of BAR 0 with 0xFFFFFFF0: the
entry of BAR 0 is 0x10. -/
theorem pci_init_bar_size_decode_witness :
    ¬ probe_failed (probe_state probe_world 0) 0
    ∧ probe_value (probe_state probe_world 0) 0 = 0xFFFFFFF0
    ∧ (pciefw_pci_init host_up probe_world).2.bar_size 0 = 0x10 :=
  have h := pci_init_bar_size_decode host_up probe_world 0 0xFFFFFFF0 rfl rfl rfl
    (by decide) (by decide) (by decide) (by decide)
  ⟨by decide, by decide, (h.2.2.2.2.1 (by decide)).2.1.trans (by decide)⟩

/-- C4: when the two header bytes on the stream declare a size above the
capacity max_size (at least 2), the receive fails with -1 after the single
2-byte header read: the read log gains one entry, the stream keeps every byte
after the header, the buffer is untouched.  The same holds for the reception
of a request (capacity 15 + 4096) and of a reply (capacity 11). -/
theorem recv_oversized_header (s : State) (b0 b1 : Byte) (tail : List Byte)
    (hrx : s.rx = b0 :: b1 :: tail) :
    (∀ (buf : Mem) (max_size : Nat), 2 ≤ max_size → max_size < le_value [b0, b1] →
      pciefw_recv_buf s buf max_size
        = { ret := -1, buf := buf, st := { s with rx := tail, recvs := s.recvs ++ [2] } })
    ∧ (15 + 4096 < le_value [b0, b1] →
      pciefw_recv_msg s = (-1, { s with rx := tail, recvs := s.recvs ++ [2] }))
    ∧ (11 < le_value [b0, b1] → ∀ (rest : List SelRes) (r : Mem),
      s.selects = SelRes.ready :: rest →
      pciefw_recv_reply s r
        = { ret := -1, buf := r,
            st := { s with selects := rest, rx := tail, recvs := s.recvs ++ [2] } }) := by
  have key : ∀ (t : State) (buf : Mem) (max_size : Nat), t.rx = b0 :: b1 :: tail →
      2 ≤ max_size → max_size < le_value [b0, b1] →
      pciefw_recv_buf t buf max_size
        = { ret := -1, buf := buf, st := { t with rx := tail, recvs := t.recvs ++ [2] } } := by
    intro t buf max_size ht hmax hbig
    have e1 := sock_recv_exact t [b0, b1] tail (by simpa using ht)
    have hu : u64 ((([b0, b1] : List Byte).length : Nat) : Int) = 2 :=
      u64_natCast 2 (by decide)
    have c1 : ¬ max_size < 2 := by omega
    unfold pciefw_recv_buf
    simp only [HEADER_SIZE]
    rw [if_neg c1]
    have e1' : sock_recv t 2
        = { n := ((([b0, b1] : List Byte).length : Nat) : Int), bytes := [b0, b1],
            st := { t with recvs := t.recvs ++ [2], rx := tail } } := e1
    rw [e1']
    dsimp only
    rw [if_neg (by rw [hu]; simp), if_pos hbig]
  refine ⟨fun buf max_size hmax hbig => key s buf max_size hrx hmax hbig, ?_, ?_⟩
  · intro hbig
    unfold pciefw_recv_msg
    rw [key s s.msg PCIEFW_MSG_MAX_SIZE hrx (by decide) hbig]
    simp
  · intro hbig rest r hsel
    unfold pciefw_recv_reply
    rw [hsel]
    unfold pciefw_recv_reply_loop
    rw [key { s with selects := rest } r REPLY_SIZE hrx (by decide) hbig]
    simp [u64_neg_one, REPLY_SIZE]

/-- C4 at a header declaring 65535 bytes, above both capacities. -/
theorem recv_oversized_header_witness :
    pciefw_recv_buf { idle with rx := [255, 255, 7, 7], selects := [SelRes.ready] } zero_mem 11
      = { ret := -1, buf := zero_mem,
          st := { idle with rx := [7, 7], selects := [SelRes.ready], recvs := [2] } }
    ∧ pciefw_recv_msg { idle with rx := [255, 255, 7, 7], selects := [SelRes.ready] }
      = (-1, { idle with rx := [7, 7], selects := [SelRes.ready], recvs := [2] })
    ∧ pciefw_recv_reply { idle with rx := [255, 255, 7, 7], selects := [SelRes.ready] } zero_mem
      = { ret := -1, buf := zero_mem, st := { idle with rx := [7, 7], recvs := [2] } } :=
  have h := recv_oversized_header
    { idle with rx := [255, 255, 7, 7], selects := [SelRes.ready] } 255 255 [7, 7] rfl
  ⟨h.1 zero_mem 11 (by decide) (by decide), h.2.1 (by decide),
    h.2.2 (by decide) [] zero_mem rfl⟩

/-- C5 fails on the code at a header declaring total size 0: the check against
the capacity 11 passes, the body length asked of the socket is 2^64 - 2, far
above 11 - 2, the 12 bytes that follow on the stream are written from offset 2
(offsets 11, 12 and 13 lie past the 11-byte reply), and only then does the
receive return -1. -/
theorem recv_buf_undersized_header :
    (pciefw_recv_buf undersized_world zero_mem REPLY_SIZE).st.recvs = [2, 2 ^ 64 - 2]
    ∧ ¬ (2 ^ 64 - 2 ≤ REPLY_SIZE - 2)
    ∧ load (pciefw_recv_buf undersized_world zero_mem REPLY_SIZE).buf 11 3 = [10, 11, 12]
    ∧ (pciefw_recv_buf undersized_world zero_mem REPLY_SIZE).ret = -1 := by
  decide

/-- C7: for a complete, well-formed Request pending on a readable socket, the
dispatcher consumes exactly that message (two reads: the 2-byte header and the
13 + p byte body) and its side effects depend on the opcode alone: opcode 3
gives exactly one DMA write at the Request's address of the p payload bytes
and no interrupt, opcode 7 gives exactly one MSI notification on vector 0 and
no DMA write, any other opcode gives neither. -/
theorem on_read_dispatch (s : State) (op bar width addr p : Nat) (payload tail : List Byte)
    (rest : List SelRes) (hsel : s.selects = SelRes.ready :: rest)
    (hop : op < 256) (haddr : addr < 2 ^ 64)
    (hp : payload.length = p) (hp4096 : p ≤ 4096)
    (hrx : s.rx = wire_request (15 + p) op bar width addr p payload ++ tail) :
    (pciefw_on_read s).rx = tail
    ∧ (pciefw_on_read s).recvs = s.recvs ++ [2, 13 + p]
    ∧ (op = 3 → (pciefw_on_read s).dma = s.dma ++ [(addr, p, payload)]
        ∧ (pciefw_on_read s).msi = s.msi)
    ∧ (op = 7 → (pciefw_on_read s).dma = s.dma ∧ (pciefw_on_read s).msi = s.msi ++ [0])
    ∧ (op ≠ 3 → op ≠ 7 → (pciefw_on_read s).dma = s.dma ∧ (pciefw_on_read s).msi = s.msi) := by
  rw [on_read_request s op bar width addr p payload tail rest hsel hop haddr hp hp4096 hrx]
  refine ⟨rfl, rfl, ?_, ?_, ?_⟩
  · intro h
    simp [h]
  · intro h
    simp [h]
  · intro h3 h7
    simp [h3, h7]

/-- C7 at the write-mem Request of the specification: address 0x1000, size 4,
payload 04 03 02 01. -/
theorem on_read_dispatch_witness :
    (pciefw_on_read
        { idle with
          selects := [SelRes.ready],
          rx := wire_request 19 3 0 4 0x1000 4 [4, 3, 2, 1] }).dma
        = [(0x1000, 4, [4, 3, 2, 1])]
    ∧ (pciefw_on_read
        { idle with
          selects := [SelRes.ready],
          rx := wire_request 19 3 0 4 0x1000 4 [4, 3, 2, 1] }).msi = [] :=
  (on_read_dispatch
      { idle with
        selects := [SelRes.ready],
        rx := wire_request 19 3 0 4 0x1000 4 [4, 3, 2, 1] }
      3 0 4 0x1000 4 [4, 3, 2, 1] [] [] rfl (by decide) (by decide) rfl (by decide)
      (by decide)).2.2.1 rfl

/-- C8, as amended: for every sender buffer whose payload-size field p is at
most 4096 and every receiver (whatever its buffer held), feeding the 15 + p
bytes emitted by pciefw_send_msg to pciefw_recv_msg succeeds, consumes exactly
those bytes and leaves in the receiving buffer, from offset 2 on, the bytes of
the message sent: opcode, BAR, width, address, payload size and payload are
identical.  The total size is delivered as the return value of
pciefw_recv_buf; the two header bytes of the receiving buffer are not written. -/
theorem send_recv_roundtrip (s r : State) (p : Nat) (tail : List Byte)
    (hp : le_value (load s.msg 13 2) = p) (hp4096 : p ≤ 4096)
    (hrx : r.rx = load (pciefw_send_msg s).2.msg 0 (15 + p) ++ tail) :
    (pciefw_send_msg s).2.tx = s.tx ++ [load (pciefw_send_msg s).2.msg 0 (15 + p)]
    ∧ (pciefw_recv_msg r).1 = 0
    ∧ (pciefw_recv_msg r).2.rx = tail
    ∧ load (pciefw_recv_msg r).2.msg 2 (13 + p) = load (pciefw_send_msg s).2.msg 2 (13 + p)
    ∧ (pciefw_recv_msg r).2.msg 2 = (pciefw_send_msg s).2.msg 2
    ∧ (pciefw_recv_msg r).2.msg 3 = (pciefw_send_msg s).2.msg 3
    ∧ (pciefw_recv_msg r).2.msg 4 = (pciefw_send_msg s).2.msg 4
    ∧ le_value (load (pciefw_recv_msg r).2.msg 5 8)
        = le_value (load (pciefw_send_msg s).2.msg 5 8)
    ∧ le_value (load (pciefw_recv_msg r).2.msg 13 2) = p
    ∧ load (pciefw_recv_msg r).2.msg 15 p = load (pciefw_send_msg s).2.msg 15 p
    ∧ (pciefw_recv_buf r r.msg PCIEFW_MSG_MAX_SIZE).ret
        = (le_value (load (pciefw_send_msg s).2.msg 0 2) : Int)
    ∧ load (pciefw_recv_msg r).2.msg 0 2 = load r.msg 0 2 := by
  obtain ⟨hm, htx, hb⟩ := send_msg_bytes s p hp
  rw [hb] at hrx
  have hf := recv_buf_frame r r.msg PCIEFW_MSG_MAX_SIZE (15 + p) (load s.msg 2 (13 + p)) tail
    (by decide) (by omega) (by simp [PCIEFW_MSG_MAX_SIZE, OFF_DATA]; omega) (by omega)
    (by simp; omega) hrx
  have hpos : ((15 + p : Nat) : Int) > 0 := by omega
  have hr : pciefw_recv_msg r
      = (0, { r with
              rx := tail, recvs := r.recvs ++ [2, 15 + p - 2],
              msg := store r.msg 2 (load s.msg 2 (13 + p)) }) := by
    unfold pciefw_recv_msg
    rw [hf]
    dsimp only
    rw [if_pos hpos]
  have hbody : load (store r.msg 2 (load s.msg 2 (13 + p))) 2 (13 + p)
      = load (store s.msg 0 (le_bytes 2 (15 + p))) 2 (13 + p) := by
    have h1 := load_store_same r.msg 2 (load s.msg 2 (13 + p))
    rw [load_length] at h1
    rw [h1, load_store_outside _ 0 _ 2 (13 + p) (by simp)]
  have hpt := (load_eq_iff _ _ 2 (13 + p)).1 hbody
  have hsz : load (store s.msg 0 (le_bytes 2 (15 + p))) 13 2 = load s.msg 13 2 :=
    load_store_outside _ 0 _ 13 2 (by simp)
  have hhd : load (store s.msg 0 (le_bytes 2 (15 + p))) 0 2 = le_bytes 2 (15 + p) := by
    have h1 := load_store_same s.msg 0 (le_bytes 2 (15 + p))
    rw [le_bytes_length] at h1
    exact h1
  rw [hm] at htx
  rw [hr, hm]
  refine ⟨htx, rfl, rfl, hbody, hpt 0 (by omega), hpt 1 (by omega), hpt 2 (by omega), ?_, ?_,
    ?_, ?_, ?_⟩
  · rw [load_sub _ _ 2 (13 + p) 3 8 hbody (by omega)]
  · have h := load_sub _ _ 2 (13 + p) 11 2 hbody (by omega)
    dsimp only
    rw [show (2 : Nat) + 11 = 13 from rfl] at h
    rw [h, hsz, hp]
  · exact load_sub _ _ 2 (13 + p) 13 p hbody (by omega)
  · rw [hf, hhd, le_value_le_bytes]
    dsimp only
    congr 1
    omega
  · exact load_store_outside _ 2 _ 0 2 (by simp)

/-- C8 on a read-config request of payload size 0 sent to a receiver whose
stream holds exactly the emitted bytes. -/
theorem send_recv_roundtrip_witness :
    (pciefw_recv_msg
        (roundtrip_receiver (load (pciefw_send_msg roundtrip_sender).2.msg 0 15))).1 = 0
    ∧ load (pciefw_recv_msg
        (roundtrip_receiver (load (pciefw_send_msg roundtrip_sender).2.msg 0 15))).2.msg 2 13
        = load (pciefw_send_msg roundtrip_sender).2.msg 2 13 :=
  have h := send_recv_roundtrip roundtrip_sender
    (roundtrip_receiver (load (pciefw_send_msg roundtrip_sender).2.msg 0 15)) 0 []
    (by decide) (by decide) (by decide)
  ⟨h.2.1, h.2.2.2.1⟩

/-- C8 as stated fails on the total-size header: after the round trip of a
15-byte request into an all-zero receiving buffer, the receive has succeeded
but the header bytes of the receiving buffer are 00 00, while those of the
message sent are 0F 00. -/
theorem send_recv_roundtrip_header_counterexample :
    (pciefw_recv_msg
        (roundtrip_receiver (load (pciefw_send_msg roundtrip_sender).2.msg 0 15))).1 = 0
    ∧ load (pciefw_send_msg roundtrip_sender).2.msg 0 2 = [15, 0]
    ∧ load (pciefw_recv_msg
        (roundtrip_receiver (load (pciefw_send_msg roundtrip_sender).2.msg 0 15))).2.msg 0 2
        = [0, 0]
    ∧ load (pciefw_recv_msg
        (roundtrip_receiver (load (pciefw_send_msg roundtrip_sender).2.msg 0 15))).2.msg 0 2
        ≠ load (pciefw_send_msg roundtrip_sender).2.msg 0 2 := by
  decide

/-- C10 fails on the code at two frames a peer can send.  First, after a
4-byte MMIO write the session buffer holds opcode 3 and payload size 4; a
frame made of the 2-byte header alone (total size 2) is then received
successfully with an empty body read, no opcode byte and no payload byte
arrives, and the dispatcher still makes a DMA write of 4 bytes, the bytes of
the earlier write, at the earlier address.  Second, after an 8-byte MMIO write
a write-mem frame of total size 15 (the fixed part alone, no payload byte)
whose payload-size field says 8 is received successfully, its opcode and
address are the received ones, and the DMA write has length 8 and sends the 8
bytes of the earlier write: in both runs the DMA length exceeds the number of
payload bytes received, the total size minus 15. -/
theorem on_read_unchecked_length :
    (pciefw_recv_msg { stale_world with selects := [] }).1 = 0
    ∧ (pciefw_on_read stale_world).recvs = [2, 0]
    ∧ le_value (List.take 2 stale_world.rx) = 2
    ∧ (pciefw_on_read stale_world).dma = [(0x2000, 4, [0xDD, 0xCC, 0xBB, 0xAA])]
    ∧ ¬ (4 ≤ le_value (List.take 2 stale_world.rx) - 15)
    ∧ (pciefw_recv_msg { short_payload_world with selects := [] }).1 = 0
    ∧ (pciefw_on_read short_payload_world).recvs = [2, 13]
    ∧ le_value (List.take 2 short_payload_world.rx) = 15
    ∧ (pciefw_on_read short_payload_world).dma
        = [(0x3000, 8, [0x88, 0x77, 0x66, 0x55, 0x44, 0x33, 0x22, 0x11])]
    ∧ ¬ (8 ≤ le_value (List.take 2 short_payload_world.rx) - 15) := by
  decide

end Pciefw
